import Mathlib

/-!
Shallow embedding of `generatekey.py` (repository cee-tv/Genz).

The script works with timezone-aware datetimes in the fixed-offset zone
Asia/Manila (UTC+8, no daylight saving).  Every date operation the script
performs (`relativedelta` with `days`, `weeks`, `months` or `years`
arguments) changes only the calendar date and carries the time of day and
the fixed offset unchanged, so the embedding models the date component
`(year, month, day)` of the proleptic Gregorian calendar; the time of day
is an unchanged passenger and is not represented.
-/

namespace Genz

/-- A Gregorian calendar date, the date component of the `datetime` values
used by `generatekey.py`. -/
structure Date where
  year : Nat
  month : Nat
  day : Nat
deriving DecidableEq, Repr

/-- Gregorian leap-year rule, as implemented by Python's `calendar.isleap`
which `dateutil.relativedelta` relies on for day clamping. -/
def isLeap (y : Nat) : Bool :=
  (y % 4 == 0 && y % 100 != 0) || (y % 400 == 0)

/-- Number of days in month `m` of year `y` (Python `calendar.monthrange`). -/
def monthLen (y : Nat) (m : Nat) : Nat :=
  match m with
  | 2 => if isLeap y then 29 else 28
  | 4 => 30
  | 6 => 30
  | 9 => 30
  | 11 => 30
  | _ => 31

/-- Days in year `y` strictly before month `m` (months are 1-based). -/
def daysBeforeMonth (y : Nat) : Nat → Nat
  | 0 => 0
  | 1 => 0
  | m + 2 => daysBeforeMonth y (m + 1) + monthLen y (m + 1)

/-- Number of leap years in the interval `[1, y]`. -/
def leapsBefore (y : Nat) : Nat :=
  y / 4 - y / 100 + y / 400

/-- Days strictly before January 1 of year `y` counting from 0001-01-01. -/
def daysBeforeYear (y : Nat) : Nat :=
  365 * (y - 1) + leapsBefore (y - 1)

/-- Proleptic Gregorian ordinal of a date, with 0001-01-01 mapped to 1;
this is Python's `datetime.toordinal`, the linear day count underlying
exact-duration (`timedelta`) arithmetic. -/
def toOrdinal (d : Date) : Nat :=
  daysBeforeYear d.year + daysBeforeMonth d.year d.month + d.day

/-- The date is a real calendar date (year at least 1, month in 1..12, day
within the month). -/
def Date.Valid (d : Date) : Prop :=
  1 ≤ d.year ∧ 1 ≤ d.month ∧ d.month ≤ 12 ∧ 1 ≤ d.day ∧
    d.day ≤ monthLen d.year d.month

instance (d : Date) : Decidable d.Valid := by
  unfold Date.Valid
  infer_instance

/-- Successor date: the calendar day after `d`. -/
def nextDay (d : Date) : Date :=
  if d.day < monthLen d.year d.month then
    ⟨d.year, d.month, d.day + 1⟩
  else if d.month < 12 then
    ⟨d.year, d.month + 1, 1⟩
  else
    ⟨d.year + 1, 1, 1⟩

/-- `relativedelta(days=+n)`: an exact duration of `n` calendar days. -/
def addDays (d : Date) (n : Nat) : Date :=
  nextDay^[n] d

/-- `relativedelta(months=+n)`: advance the month index by `n`, then clamp
the day to the length of the landing month (dateutil's month-end
overflow rule). -/
def addMonths (d : Date) (n : Nat) : Date :=
  let t := d.year * 12 + (d.month - 1) + n
  let y := t / 12
  let m := t % 12 + 1
  ⟨y, m, min d.day (monthLen y m)⟩

/-- `relativedelta(years=+n)`: advance the year by `n`, keep the month, and
clamp the day to the length of the landing month (Feb 29 maps to Feb 28
in a non-leap target year). -/
def addYears (d : Date) (n : Nat) : Date :=
  let y := d.year + n
  ⟨y, d.month, min d.day (monthLen y d.month)⟩

/-- The allowed units, `VALID_UNITS` in the script. -/
def VALID_UNITS : List String :=
  ["days", "weeks", "months", "years"]

/-- ASCII lowercase of a character, the behaviour of Python's `str.lower`
on the ASCII strings this program handles. -/
def lowerChar (c : Char) : Char :=
  if 65 ≤ c.toNat ∧ c.toNat ≤ 90 then Char.ofNat (c.toNat + 32) else c

/-- Python's `unit.lower()` on ASCII strings. -/
def lower (s : String) : String :=
  String.mk (s.data.map lowerChar)

/-- `compute_expiry(now_pht, unit, amount)` from `generatekey.py`: lowercase
the unit, reject an unknown unit or a non-positive amount with
`ValueError`, then dispatch on the unit; the final line of the Python
function is a fallback returning `now_pht` unchanged. -/
def compute_expiry (now_pht : Date) (unit : String) (amount : Int) :
    Except String Date :=
  if lower unit ∉ VALID_UNITS then
    .error "unit must be one of ['days', 'months', 'weeks', 'years']"
  else if amount ≤ 0 then
    .error "amount must be a positive integer"
  else if lower unit = "days" then
    .ok (addDays now_pht amount.toNat)
  else if lower unit = "weeks" then
    .ok (addDays now_pht (7 * amount.toNat))
  else if lower unit = "months" then
    .ok (addMonths now_pht amount.toNat)
  else if lower unit = "years" then
    .ok (addYears now_pht amount.toNat)
  else
    .ok now_pht

/-- Month index of a date: months elapsed since January of year 0; the
quantity `relativedelta` month arithmetic is linear in. -/
def monthIdx (d : Date) : Nat :=
  d.year * 12 + (d.month - 1)

/-- Whether a Python-style fallible computation returned normally rather
than raising. -/
def exceptOk {ε α : Type} : Except ε α → Bool
  | .ok _ => true
  | .error _ => false

/-! ### Keys: `make_key` and URL-safe base64

`make_key()` draws 16 bytes from `secrets.token_bytes`; the embedding takes
those bytes as an explicit argument (a list of naturals below 256). -/

/-- The URL-safe base64 alphabet of Python's `base64.urlsafe_b64encode`. -/
def b64Alphabet : List Char :=
  "ABCDEFGHIJKLMNOPQRSTUVWXYZabcdefghijklmnopqrstuvwxyz0123456789-_".data

/-- Character for a six-bit group. -/
def b64Char (n : Nat) : Char :=
  b64Alphabet.getD n 'A'

/-- Six-bit value of an alphabet character, if any. -/
def b64DecChar (c : Char) : Option Nat :=
  b64Alphabet.findIdx? (fun x => x == c)

/-- Standard base64 of a byte list with `'='` padding, as produced by
`base64.urlsafe_b64encode`: three-byte groups become four characters, a
trailing group of one or two bytes becomes two or three characters plus
padding. -/
def b64encodePad : List Nat → List Char
  | [] => []
  | [a] => [b64Char (a / 4), b64Char (a % 4 * 16), '=', '=']
  | [a, b] => [b64Char (a / 4), b64Char (a % 4 * 16 + b / 16),
      b64Char (b % 16 * 4), '=']
  | a :: b :: c :: rest =>
      b64Char (a / 4) :: b64Char (a % 4 * 16 + b / 16) ::
        b64Char (b % 16 * 4 + c / 64) :: b64Char (c % 64) :: b64encodePad rest

/-- Unpadded URL-safe base64 of a byte list. -/
def b64encodeNoPad : List Nat → List Char
  | [] => []
  | [a] => [b64Char (a / 4), b64Char (a % 4 * 16)]
  | [a, b] => [b64Char (a / 4), b64Char (a % 4 * 16 + b / 16),
      b64Char (b % 16 * 4)]
  | a :: b :: c :: rest =>
      b64Char (a / 4) :: b64Char (a % 4 * 16 + b / 16) ::
        b64Char (b % 16 * 4 + c / 64) :: b64Char (c % 64) :: b64encodeNoPad rest

/-- Python's `rstrip("=")` at the character-list level. -/
def rstripEq (cs : List Char) : List Char :=
  (cs.reverse.dropWhile (fun c => c == '=')).reverse

/-- Decoder for unpadded URL-safe base64, the inverse direction used to
state that a key's suffix decodes back to raw bytes. -/
def b64decodeNoPad : List Char → Option (List Nat)
  | [] => some []
  | [_] => none
  | [c1, c2] => do
      let s1 ← b64DecChar c1
      let s2 ← b64DecChar c2
      if s2 % 16 = 0 then some [s1 * 4 + s2 / 16] else none
  | [c1, c2, c3] => do
      let s1 ← b64DecChar c1
      let s2 ← b64DecChar c2
      let s3 ← b64DecChar c3
      if s3 % 4 = 0 then some [s1 * 4 + s2 / 16, s2 % 16 * 16 + s3 / 4]
      else none
  | c1 :: c2 :: c3 :: c4 :: rest => do
      let s1 ← b64DecChar c1
      let s2 ← b64DecChar c2
      let s3 ← b64DecChar c3
      let s4 ← b64DecChar c4
      let tail ← b64decodeNoPad rest
      some ((s1 * 4 + s2 / 16) :: (s2 % 16 * 16 + s3 / 4) ::
        (s3 % 4 * 64 + s4) :: tail)

/-- `make_key()` from `generatekey.py` on given random bytes: URL-safe
base64, padding stripped, prefixed with the literal `KEY-` marker. -/
def make_key (raw : List Nat) : String :=
  "KEY-" ++ String.mk (rstripEq (b64encodePad raw))

/-! ### Payload and file outputs

The Python payload also carries `generated_at_utc`, `expires_at_utc` and a
constant `timezone` label; they are fixed-offset renderings of the same two
instants, no claim mentions them, and they are omitted here.  Timestamp
strings keep the date component only (see the module comment). -/

/-- Zero-padded two-digit rendering. -/
def pad2 (n : Nat) : String :=
  if n < 10 then "0" ++ toString n else toString n

/-- Date component of `datetime.isoformat()`, the script's `to_rfc3339`. -/
def to_rfc3339 (d : Date) : String :=
  toString d.year ++ "-" ++ pad2 d.month ++ "-" ++ pad2 d.day

/-- Unix epoch seconds of midnight on date `d` in UTC+8; `719163` is the
proleptic Gregorian ordinal of 1970-01-01. -/
def dateToUnixPHT (d : Date) : Int :=
  86400 * ((toOrdinal d : Int) - 719163) - 28800

/-- The batch record built in `main()` (the fields every claim touches). -/
structure Payload where
  generated_at_pht : String
  unit : String
  amount : Int
  count : Int
  tag : String
  expires_at_pht : String
  expires_at_unix : Int
  keys : List String
deriving DecidableEq, Repr

/-- The payload dictionary literal of `main()`. -/
def mkPayload (now expires : Date) (unit : String) (amount count : Int)
    (tag : String) (keys : List String) : Payload :=
  { generated_at_pht := to_rfc3339 now
    unit := unit
    amount := amount
    count := count
    tag := tag
    expires_at_pht := to_rfc3339 expires
    expires_at_unix := dateToUnixPHT expires
    keys := keys }

/-- Key generation and payload construction of `main()`: compute the expiry
once, generate `count` keys (the i-th from `rand i`), and build the single
batch payload.  File writing is modelled separately in `write_outputs`. -/
def genKeysRun (rand : Nat → List Nat) (now : Date) (unit : String)
    (amount count : Int) (tag : String) : Except String Payload := do
  let expires ← compute_expiry now unit amount
  let keys := (List.range count.toNat).map (fun i => make_key (rand i))
  pure (mkPayload now expires unit amount count tag keys)

/-- The CSV header row written by `write_outputs`. -/
def csvHeader : List String :=
  ["key", "generated_at_pht", "expires_at_pht", "expires_at_unix", "unit",
    "amount", "tag"]

/-- One CSV data row: the key plus the batch metadata repeated. -/
def csvRow (p : Payload) (k : String) : List String :=
  [k, p.generated_at_pht, p.expires_at_pht, toString p.expires_at_unix,
    p.unit, toString p.amount, p.tag]

/-- The rows of `keys.csv`: header, then one row per key of the batch. -/
def csvRows (p : Payload) : List (List String) :=
  csvHeader :: p.keys.map (csvRow p)

/-- A run summary appended to `index.json`. -/
structure IndexEntry where
  run : String
  unit : String
  amount : Int
  count : Nat
  generated_at_pht : String
  expires_at_pht : String
  tag : String
deriving DecidableEq, Repr

/-- The summary dictionary `write_outputs` appends for one run. -/
def entryOf (runName : String) (p : Payload) : IndexEntry :=
  { run := runName
    unit := p.unit
    amount := p.amount
    count := p.keys.length
    generated_at_pht := p.generated_at_pht
    expires_at_pht := p.expires_at_pht
    tag := p.tag }

/-- State of the `index.json` file before a run: absent, present but not
parseable as JSON, or a well-formed list of entries. -/
inductive IndexContent where
  | missing
  | corrupt
  | wellFormed (entries : List IndexEntry)
deriving DecidableEq, Repr

/-- The index-reading step of `write_outputs`: start from `[]`, and only a
file that exists and parses contributes entries — a missing or corrupt
file is treated as the empty list. -/
def loadIndex : IndexContent → List IndexEntry
  | .missing => []
  | .corrupt => []
  | .wellFormed entries => entries

/-- The files `write_outputs` leaves on disk for one run. -/
structure RunOutputs where
  run_dir : String
  keys_json : Payload
  keys_csv : List (List String)
  latest_json : Payload
  index_json : List IndexEntry
deriving DecidableEq, Repr

/-- `write_outputs(output_dir, payload)` from `generatekey.py`: create the
run directory, write the payload as `keys.json`, write `keys.csv`,
overwrite `latest.json` with the payload, and append one summary entry to
the index read from its prior state. -/
def write_outputs (runName : String) (prior : IndexContent) (p : Payload) :
    RunOutputs :=
  { run_dir := runName
    keys_json := p
    keys_csv := csvRows p
    latest_json := p
    index_json := loadIndex prior ++ [entryOf runName p] }

/-- `main()` after argument parsing: build the payload (validating unit and
amount through `compute_expiry`) and write all outputs.  `argparse` itself
restricts `--unit` to the allowed choices and parses `--amount` and
`--count` as plain integers with no positivity check. -/
def main_model (rand : Nat → List Nat) (now : Date) (unit : String)
    (amount count : Int) (tag runName : String) (prior : IndexContent) :
    Except String RunOutputs := do
  let p ← genKeysRun rand now unit amount count tag
  pure (write_outputs runName prior p)

/-- N sequential invocations against the same directory with no external
corruption: each run reads back the index the previous run wrote. -/
def runAll (runs : List (String × Payload)) : List IndexEntry :=
  runs.foldl (fun idx r => (write_outputs r.1 (.wellFormed idx) r.2).index_json) []

/-! ### Key Store and Validator

The Store and Validator variant is described by the specification but its
source file is not part of this repository checkout, so it is modelled
from the specification text. -/

/-- Modelled from the spec: a stored Key Record of the Store variant —
`{key, created, expires, duration, unit, valid_days, hash}` — whose
`hash` field is the derived lookup digest of the key.  The missing code is
the Store variant's record construction. -/
structure StoreRecord where
  key : String
  created : Int
  expires : Int
  duration : Int
  unit : String
  valid_days : Int
  hash : String
deriving DecidableEq, Repr

/-- Result of `ValidateKey`: `Valid` with the matched record, or a
structured negative result with a reason string. -/
inductive ValidationResult where
  | valid (record : StoreRecord)
  | invalid (reason : String)
deriving DecidableEq, Repr

/-- Modelled from the spec: `ValidateKey(presentedKey)` — compute the
digest of the presented key, linearly scan the stored collection for a
record whose stored digest matches, and on a match compare `expires`
against the current time; the store file may be absent (`none`).  The
digest function is abstract (a collision-resistant hash in the spec).
The missing code is the Store variant's validation routine. -/
def validate_key (digest : String → String) (store : Option (List StoreRecord))
    (presented : String) (now : Int) : ValidationResult :=
  match store with
  | none => .invalid "No keys found"
  | some records =>
    match records.find? (fun r => r.hash == digest presented) with
    | none => .invalid "Invalid key"
    | some r => if now < r.expires then .valid r else .invalid "Key expired"

/-! ### Calendar lemmas: the successor date advances the ordinal by one -/

theorem monthLen_pos (y m : Nat) : 1 ≤ monthLen y m := by
  unfold monthLen
  split
  · split <;> omega
  all_goals omega

theorem daysBeforeMonth_succ (y : Nat) {m : Nat} (h : 1 ≤ m) :
    daysBeforeMonth y (m + 1) = daysBeforeMonth y m + monthLen y m := by
  match m, h with
  | m + 1, _ => rfl

theorem daysBeforeMonth_year (y : Nat) :
    daysBeforeMonth y 13 = if isLeap y then 366 else 365 := by
  cases h : isLeap y <;>
    simp [daysBeforeMonth, monthLen, h]

theorem leapsBefore_succ {y : Nat} (hy : 1 ≤ y) :
    leapsBefore y = leapsBefore (y - 1) + (if isLeap y then 1 else 0) := by
  unfold leapsBefore isLeap
  by_cases h4 : y % 4 = 0 <;> by_cases h100 : y % 100 = 0 <;>
    by_cases h400 : y % 400 = 0 <;>
    simp [h4, h100, h400] <;> omega

theorem daysBeforeYear_succ {y : Nat} (hy : 1 ≤ y) :
    daysBeforeYear (y + 1) = daysBeforeYear y + (if isLeap y then 366 else 365) := by
  unfold daysBeforeYear
  have h := leapsBefore_succ hy
  simp only [Nat.add_sub_cancel]
  rw [h]
  split <;> omega

theorem toOrdinal_nextDay {d : Date} (h : d.Valid) :
    toOrdinal (nextDay d) = toOrdinal d + 1 := by
  obtain ⟨hy, hm1, hm12, hd1, hdm⟩ := h
  unfold nextDay
  by_cases hlt : d.day < monthLen d.year d.month
  · rw [if_pos hlt]
    show daysBeforeYear d.year + daysBeforeMonth d.year d.month + (d.day + 1) =
      toOrdinal d + 1
    unfold toOrdinal
    omega
  · have hday : d.day = monthLen d.year d.month := by omega
    by_cases hm : d.month < 12
    · rw [if_neg hlt, if_pos hm]
      show daysBeforeYear d.year + daysBeforeMonth d.year (d.month + 1) + 1 =
        toOrdinal d + 1
      rw [daysBeforeMonth_succ d.year hm1]
      unfold toOrdinal
      omega
    · have hm' : d.month = 12 := by omega
      rw [if_neg hlt, if_neg hm]
      show daysBeforeYear (d.year + 1) + daysBeforeMonth (d.year + 1) 1 + 1 =
        toOrdinal d + 1
      have hyy := daysBeforeYear_succ hy
      have h366 := daysBeforeMonth_year d.year
      have hstep : daysBeforeMonth d.year 13 =
          daysBeforeMonth d.year 12 + 31 := rfl
      have hml : monthLen d.year 12 = 31 := rfl
      have hdbm1 : daysBeforeMonth (d.year + 1) 1 = 0 := rfl
      unfold toOrdinal
      rw [hm'] at hday ⊢
      rw [hml] at hday
      cases hL : isLeap d.year <;> simp only [hL, if_true, if_false] at hyy h366 <;>
        omega

theorem nextDay_valid {d : Date} (h : d.Valid) : (nextDay d).Valid := by
  obtain ⟨hy, hm1, hm12, hd1, hdm⟩ := h
  unfold nextDay
  by_cases hlt : d.day < monthLen d.year d.month
  · rw [if_pos hlt]
    show 1 ≤ d.year ∧ 1 ≤ d.month ∧ d.month ≤ 12 ∧ 1 ≤ d.day + 1 ∧
      d.day + 1 ≤ monthLen d.year d.month
    exact ⟨hy, hm1, hm12, by omega, by omega⟩
  · by_cases hm : d.month < 12
    · rw [if_neg hlt, if_pos hm]
      show 1 ≤ d.year ∧ 1 ≤ d.month + 1 ∧ d.month + 1 ≤ 12 ∧ 1 ≤ 1 ∧
        1 ≤ monthLen d.year (d.month + 1)
      exact ⟨hy, by omega, by omega, le_refl 1, monthLen_pos _ _⟩
    · rw [if_neg hlt, if_neg hm]
      show 1 ≤ d.year + 1 ∧ 1 ≤ 1 ∧ 1 ≤ 12 ∧ 1 ≤ 1 ∧
        1 ≤ monthLen (d.year + 1) 1
      exact ⟨by omega, le_refl 1, by omega, le_refl 1, monthLen_pos _ _⟩

theorem toOrdinal_addDays {d : Date} (h : d.Valid) (n : Nat) :
    toOrdinal (addDays d n) = toOrdinal d + n ∧ (addDays d n).Valid := by
  induction n generalizing d with
  | zero => exact ⟨rfl, h⟩
  | succ k ih =>
    have hstep : addDays d (k + 1) = addDays (nextDay d) k := by
      unfold addDays
      exact Function.iterate_succ_apply nextDay k d
    have hv := nextDay_valid h
    have ho := toOrdinal_nextDay h
    obtain ⟨ih1, ih2⟩ := ih hv
    refine ⟨?_, by rw [hstep]; exact ih2⟩
    rw [hstep, ih1, ho]
    omega

/-! ### Dispatch lemmas for `compute_expiry` -/

theorem mem_VALID_UNITS {u : String} (h : u ∈ VALID_UNITS) :
    u = "days" ∨ u = "weeks" ∨ u = "months" ∨ u = "years" := by
  simpa [VALID_UNITS] using h

theorem lower_fix {u : String} (h : u ∈ VALID_UNITS) : lower u = u := by
  rcases mem_VALID_UNITS h with h | h | h | h <;> subst h <;> decide

theorem compute_expiry_dispatch (now : Date) (unit : String) (amount : Int)
    (hu : lower unit ∈ VALID_UNITS) (ha : 0 < amount) :
    (lower unit = "days" ∧
      compute_expiry now unit amount = .ok (addDays now amount.toNat)) ∨
    (lower unit = "weeks" ∧
      compute_expiry now unit amount = .ok (addDays now (7 * amount.toNat))) ∨
    (lower unit = "months" ∧
      compute_expiry now unit amount = .ok (addMonths now amount.toNat)) ∨
    (lower unit = "years" ∧
      compute_expiry now unit amount = .ok (addYears now amount.toNat)) := by
  have hna : ¬(amount ≤ 0) := by omega
  have hmem : ¬(lower unit ∉ VALID_UNITS) := by simpa using hu
  rcases mem_VALID_UNITS hu with h | h | h | h
  · refine Or.inl ⟨h, ?_⟩
    unfold compute_expiry
    rw [if_neg hmem, if_neg hna, if_pos h]
  · refine Or.inr (Or.inl ⟨h, ?_⟩)
    unfold compute_expiry
    rw [if_neg hmem, if_neg hna, if_neg (by rw [h]; decide), if_pos h]
  · refine Or.inr (Or.inr (Or.inl ⟨h, ?_⟩))
    unfold compute_expiry
    rw [if_neg hmem, if_neg hna, if_neg (by rw [h]; decide),
      if_neg (by rw [h]; decide), if_pos h]
  · refine Or.inr (Or.inr (Or.inr ⟨h, ?_⟩))
    unfold compute_expiry
    rw [if_neg hmem, if_neg hna, if_neg (by rw [h]; decide),
      if_neg (by rw [h]; decide), if_neg (by rw [h]; decide), if_pos h]

theorem compute_expiry_ok (now : Date) (unit : String) (amount : Int)
    (hu : lower unit ∈ VALID_UNITS) (ha : 0 < amount) :
    ∃ e, compute_expiry now unit amount = .ok e := by
  rcases compute_expiry_dispatch now unit amount hu ha with
    ⟨_, h⟩ | ⟨_, h⟩ | ⟨_, h⟩ | ⟨_, h⟩ <;> exact ⟨_, h⟩

theorem compute_expiry_lower_eq (now : Date) (unit : String) (amount : Int)
    (hu : lower unit ∈ VALID_UNITS) :
    compute_expiry now unit amount = compute_expiry now (lower unit) amount := by
  have hl : lower (lower unit) = lower unit := lower_fix hu
  unfold compute_expiry
  rw [hl]

theorem addMonths_eq (d : Date) (n : Nat) :
    addMonths d n = ⟨(monthIdx d + n) / 12, (monthIdx d + n) % 12 + 1,
      min d.day (monthLen ((monthIdx d + n) / 12) ((monthIdx d + n) % 12 + 1))⟩ :=
  rfl

theorem addYears_eq (d : Date) (n : Nat) :
    addYears d n = ⟨d.year + n, d.month,
      min d.day (monthLen (d.year + n) d.month)⟩ :=
  rfl

/-- Claim C1: for every valid unit in {days, weeks, months, years} and every
positive amount, `compute_expiry` returns now plus exactly one calendar
offset of the requested unit and amount: days and weeks advance the linear
day ordinal by exactly `amount` (respectively `7 * amount`) days, while
months and years use calendar-aware arithmetic — months advance the month
index by exactly `amount` and clamp the day to the landing month's length
(month-end overflow), and years advance the year by `amount`, keep the
month and clamp the day to the landing month's length (leap years). -/
theorem compute_expiry_adds_calendar_offset (now : Date) (unit : String)
    (amount : Int) (hv : now.Valid) (hu : unit ∈ VALID_UNITS) (ha : 0 < amount) :
    ∃ e, compute_expiry now unit amount = .ok e ∧
      (unit = "days" → toOrdinal e = toOrdinal now + amount.toNat) ∧
      (unit = "weeks" → toOrdinal e = toOrdinal now + 7 * amount.toNat) ∧
      (unit = "months" → monthIdx e = monthIdx now + amount.toNat ∧
        1 ≤ e.month ∧ e.month ≤ 12 ∧
        e.day = min now.day (monthLen e.year e.month)) ∧
      (unit = "years" → e.year = now.year + amount.toNat ∧ e.month = now.month ∧
        e.day = min now.day (monthLen e.year e.month)) := by
  have hlu : lower unit ∈ VALID_UNITS := by rw [lower_fix hu]; exact hu
  rcases mem_VALID_UNITS hu with h | h | h | h
  · subst h
    rcases compute_expiry_dispatch now "days" amount hlu ha with
      ⟨_, hc⟩ | ⟨hl, _⟩ | ⟨hl, _⟩ | ⟨hl, _⟩
    · exact ⟨addDays now amount.toNat, hc,
        fun _ => (toOrdinal_addDays hv amount.toNat).1,
        fun hw => absurd hw (by decide),
        fun hw => absurd hw (by decide),
        fun hw => absurd hw (by decide)⟩
    · exact absurd hl (by decide)
    · exact absurd hl (by decide)
    · exact absurd hl (by decide)
  · subst h
    rcases compute_expiry_dispatch now "weeks" amount hlu ha with
      ⟨hl, _⟩ | ⟨_, hc⟩ | ⟨hl, _⟩ | ⟨hl, _⟩
    · exact absurd hl (by decide)
    · exact ⟨addDays now (7 * amount.toNat), hc,
        fun hw => absurd hw (by decide),
        fun _ => (toOrdinal_addDays hv (7 * amount.toNat)).1,
        fun hw => absurd hw (by decide),
        fun hw => absurd hw (by decide)⟩
    · exact absurd hl (by decide)
    · exact absurd hl (by decide)
  · subst h
    rcases compute_expiry_dispatch now "months" amount hlu ha with
      ⟨hl, _⟩ | ⟨hl, _⟩ | ⟨_, hc⟩ | ⟨hl, _⟩
    · exact absurd hl (by decide)
    · exact absurd hl (by decide)
    · refine ⟨addMonths now amount.toNat, hc,
        fun hw => absurd hw (by decide),
        fun hw => absurd hw (by decide),
        fun _ => ?_,
        fun hw => absurd hw (by decide)⟩
      rw [addMonths_eq]
      refine ⟨?_, ?_, ?_, rfl⟩
      · show (monthIdx now + amount.toNat) / 12 * 12 +
          ((monthIdx now + amount.toNat) % 12 + 1 - 1) = monthIdx now + amount.toNat
        omega
      · show 1 ≤ (monthIdx now + amount.toNat) % 12 + 1
        omega
      · show (monthIdx now + amount.toNat) % 12 + 1 ≤ 12
        omega
    · exact absurd hl (by decide)
  · subst h
    rcases compute_expiry_dispatch now "years" amount hlu ha with
      ⟨hl, _⟩ | ⟨hl, _⟩ | ⟨hl, _⟩ | ⟨_, hc⟩
    · exact absurd hl (by decide)
    · exact absurd hl (by decide)
    · exact absurd hl (by decide)
    · exact ⟨addYears now amount.toNat, hc,
        fun hw => absurd hw (by decide),
        fun hw => absurd hw (by decide),
        fun hw => absurd hw (by decide),
        fun _ => ⟨rfl, rfl, rfl⟩⟩

/-- Witness for C1 at the spec's concrete scenario: 30 days from
2024-01-01 is 2024-01-31, together with concrete month-end-overflow and
leap-year clamping instances. -/
theorem compute_expiry_adds_calendar_offset_witness :
    compute_expiry ⟨2024, 1, 1⟩ "days" 30 = .ok ⟨2024, 1, 31⟩ ∧
    toOrdinal ⟨2024, 1, 31⟩ = toOrdinal ⟨2024, 1, 1⟩ + (30 : Int).toNat ∧
    compute_expiry ⟨2024, 1, 31⟩ "months" 1 = .ok ⟨2024, 2, 29⟩ ∧
    compute_expiry ⟨2023, 1, 31⟩ "months" 1 = .ok ⟨2023, 2, 28⟩ ∧
    compute_expiry ⟨2024, 2, 29⟩ "years" 1 = .ok ⟨2025, 2, 28⟩ := by
  obtain ⟨e, hok, hdays, _⟩ :=
    compute_expiry_adds_calendar_offset ⟨2024, 1, 1⟩ "days" 30
      (by decide) (by decide) (by decide)
  have h0 : compute_expiry ⟨2024, 1, 1⟩ "days" 30 =
      Except.ok ⟨2024, 1, 31⟩ := rfl
  have he : (⟨2024, 1, 31⟩ : Date) = e := by
    rw [h0] at hok
    exact Except.ok.inj hok
  refine ⟨rfl, ?_, rfl, rfl, rfl⟩
  rw [he]
  exact hdays rfl

/-- Claim C5 counterexample: `compute_expiry` lowercases its unit first, so
at unit `"DAYS"` — which is not in {days, weeks, months, years} — and
amount 1 it raises no error, refuting the claimed "raises if the unit
argument is not in the allowed set" direction. -/
theorem compute_expiry_uppercase_no_error :
    exceptOk (compute_expiry ⟨2024, 1, 1⟩ "DAYS" 1) = true ∧
    "DAYS" ∉ VALID_UNITS :=
  ⟨rfl, by decide⟩

/-- Claim C5 (amended): `compute_expiry` raises an error if and only if the
lowercased unit is not in {days, weeks, months, years} or the amount is
not positive; equivalently, for every unit whose lowercase form is allowed
and every positive amount it returns a result without error. -/
theorem compute_expiry_raises_iff (now : Date) (unit : String) (amount : Int) :
    exceptOk (compute_expiry now unit amount) = false ↔
      (lower unit ∉ VALID_UNITS ∨ amount ≤ 0) := by
  constructor
  · intro h
    by_contra hc
    push_neg at hc
    obtain ⟨hm, hna⟩ := hc
    obtain ⟨e, he⟩ := compute_expiry_ok now unit amount hm hna
    rw [he] at h
    exact absurd h (by simp [exceptOk])
  · intro h
    unfold compute_expiry
    by_cases hm : lower unit ∈ VALID_UNITS
    · have hna : amount ≤ 0 := by
        rcases h with h | h
        · exact absurd hm h
        · exact h
      rw [if_neg (not_not_intro hm), if_pos hna]
      rfl
    · rw [if_pos hm]
      rfl

/-- Witness for the amended C5: a non-positive amount makes
`compute_expiry` raise. -/
theorem compute_expiry_raises_iff_witness :
    exceptOk (compute_expiry ⟨2024, 1, 1⟩ "days" 0) = false :=
  (compute_expiry_raises_iff ⟨2024, 1, 1⟩ "days" 0).mpr (Or.inr (by decide))

/-- Claim C10: under the precondition that the lowercased unit is in
{days, weeks, months, years} and the amount is positive, `compute_expiry`
returns through exactly one of the four unit branches — the lowercased
unit is one of the four literals and the result is the corresponding
branch value, so the trailing fallback returning `now` unchanged is never
the branch taken — and unit matching is case-insensitive: the result
equals the result on the lowercased unit. -/
theorem compute_expiry_branches_total (now : Date) (unit : String)
    (amount : Int) (hu : lower unit ∈ VALID_UNITS) (ha : 0 < amount) :
    compute_expiry now unit amount = compute_expiry now (lower unit) amount ∧
    (lower unit = "days" ∨ lower unit = "weeks" ∨ lower unit = "months" ∨
      lower unit = "years") ∧
    ((lower unit = "days" ∧
        compute_expiry now unit amount = .ok (addDays now amount.toNat)) ∨
     (lower unit = "weeks" ∧
        compute_expiry now unit amount = .ok (addDays now (7 * amount.toNat))) ∨
     (lower unit = "months" ∧
        compute_expiry now unit amount = .ok (addMonths now amount.toNat)) ∨
     (lower unit = "years" ∧
        compute_expiry now unit amount = .ok (addYears now amount.toNat))) :=
  ⟨compute_expiry_lower_eq now unit amount hu, mem_VALID_UNITS hu,
    compute_expiry_dispatch now unit amount hu ha⟩

/-- Witness for C10 at the mixed-case unit `"YEARS"`. -/
theorem compute_expiry_branches_total_witness :
    compute_expiry ⟨2024, 2, 29⟩ "YEARS" 2 =
      compute_expiry ⟨2024, 2, 29⟩ (lower "YEARS") 2 ∧
    (lower "YEARS" = "days" ∨ lower "YEARS" = "weeks" ∨
      lower "YEARS" = "months" ∨ lower "YEARS" = "years") ∧
    ((lower "YEARS" = "days" ∧
        compute_expiry ⟨2024, 2, 29⟩ "YEARS" 2 =
          .ok (addDays ⟨2024, 2, 29⟩ (2 : Int).toNat)) ∨
     (lower "YEARS" = "weeks" ∧
        compute_expiry ⟨2024, 2, 29⟩ "YEARS" 2 =
          .ok (addDays ⟨2024, 2, 29⟩ (7 * (2 : Int).toNat))) ∨
     (lower "YEARS" = "months" ∧
        compute_expiry ⟨2024, 2, 29⟩ "YEARS" 2 =
          .ok (addMonths ⟨2024, 2, 29⟩ (2 : Int).toNat)) ∨
     (lower "YEARS" = "years" ∧
        compute_expiry ⟨2024, 2, 29⟩ "YEARS" 2 =
          .ok (addYears ⟨2024, 2, 29⟩ (2 : Int).toNat))) :=
  compute_expiry_branches_total ⟨2024, 2, 29⟩ "YEARS" 2 (by decide) (by decide)

/-! ### Base64 lemmas: decoding inverts encoding, stripping the padding of
the padded encoding gives the unpadded encoding -/

theorem b64DecChar_b64Char {n : Nat} (h : n < 64) :
    b64DecChar (b64Char n) = some n := by
  have hfin : ∀ m : Fin 64, b64DecChar (b64Char m.1) = some m.1 := by decide
  exact hfin ⟨n, h⟩

theorem b64Char_ne_pad (n : Nat) : (b64Char n == '=') = false := by
  by_cases h : n < 64
  · have hfin : ∀ m : Fin 64, (b64Char m.1 == '=') = false := by decide
    exact hfin ⟨n, h⟩
  · have hd : b64Char n = 'A' := by
      unfold b64Char
      exact List.getD_eq_default _ _ (by simp [b64Alphabet]; omega)
    rw [hd]
    rfl

theorem b64_roundtrip : ∀ (raw : List Nat), (∀ b ∈ raw, b < 256) →
    b64decodeNoPad (b64encodeNoPad raw) = some raw
  | [], _ => rfl
  | [a], hb => by
    have ha : a < 256 := hb a (by simp)
    have h1 : a / 4 < 64 := by omega
    have h2 : a % 4 * 16 < 64 := by omega
    have hm : a % 4 * 16 % 16 = 0 := by omega
    have hv : a / 4 * 4 + a % 4 * 16 / 16 = a := by omega
    simp only [b64encodeNoPad, b64decodeNoPad, b64DecChar_b64Char h1,
      b64DecChar_b64Char h2, Option.bind_eq_bind, Option.some_bind]
    rw [if_pos hm]
    exact congrArg some (by rw [hv])
  | [a, b], hb => by
    have ha : a < 256 := hb a (by simp)
    have hbb : b < 256 := hb b (by simp)
    have h1 : a / 4 < 64 := by omega
    have h2 : a % 4 * 16 + b / 16 < 64 := by omega
    have h3 : b % 16 * 4 < 64 := by omega
    have hm : b % 16 * 4 % 4 = 0 := by omega
    have hv1 : a / 4 * 4 + (a % 4 * 16 + b / 16) / 16 = a := by omega
    have hv2 : (a % 4 * 16 + b / 16) % 16 * 16 + b % 16 * 4 / 4 = b := by omega
    simp only [b64encodeNoPad, b64decodeNoPad, b64DecChar_b64Char h1,
      b64DecChar_b64Char h2, b64DecChar_b64Char h3, Option.bind_eq_bind, Option.some_bind]
    rw [if_pos hm]
    exact congrArg some (by rw [hv1, hv2])
  | a :: b :: c :: rest, hb => by
    have ha : a < 256 := hb a (by simp)
    have hbb : b < 256 := hb b (by simp)
    have hc : c < 256 := hb c (by simp)
    have IH := b64_roundtrip rest (fun x hx => hb x (by simp [hx]))
    have h1 : a / 4 < 64 := by omega
    have h2 : a % 4 * 16 + b / 16 < 64 := by omega
    have h3 : b % 16 * 4 + c / 64 < 64 := by omega
    have h4 : c % 64 < 64 := by omega
    have hv1 : a / 4 * 4 + (a % 4 * 16 + b / 16) / 16 = a := by omega
    have hv2 : (a % 4 * 16 + b / 16) % 16 * 16 + (b % 16 * 4 + c / 64) / 4 = b := by
      omega
    have hv3 : (b % 16 * 4 + c / 64) % 4 * 64 + c % 64 = c := by omega
    simp only [b64encodeNoPad, b64decodeNoPad, b64DecChar_b64Char h1,
      b64DecChar_b64Char h2, b64DecChar_b64Char h3, b64DecChar_b64Char h4,
      IH, Option.bind_eq_bind, Option.some_bind]
    exact congrArg some (by rw [hv1, hv2, hv3])

theorem b64encodeNoPad_ne_nil : ∀ (raw : List Nat), raw ≠ [] →
    b64encodeNoPad raw ≠ []
  | [], h => absurd rfl h
  | [_], _ => by simp [b64encodeNoPad]
  | [_, _], _ => by simp [b64encodeNoPad]
  | _ :: _ :: _ :: _, _ => by simp [b64encodeNoPad]

theorem dropWhile_pad : ∀ (raw : List Nat),
    (b64encodePad raw).reverse.dropWhile (fun c => c == '=') =
      (b64encodeNoPad raw).reverse
  | [] => rfl
  | [a] => by
    simp [b64encodePad, b64encodeNoPad, List.dropWhile, b64Char_ne_pad]
  | [a, b] => by
    simp [b64encodePad, b64encodeNoPad, List.dropWhile, b64Char_ne_pad]
  | a :: b :: c :: rest => by
    have hrev : ∀ (x1 x2 x3 x4 : Char) (t : List Char),
        (x1 :: x2 :: x3 :: x4 :: t).reverse = t.reverse ++ [x4, x3, x2, x1] := by
      intros
      simp
    by_cases hr : rest = []
    · subst hr
      simp [b64encodePad, b64encodeNoPad, List.dropWhile, b64Char_ne_pad]
    · have IH := dropWhile_pad rest
      have hne : b64encodeNoPad rest ≠ [] := b64encodeNoPad_ne_nil rest hr
      show ((b64Char (a / 4) :: b64Char (a % 4 * 16 + b / 16) ::
          b64Char (b % 16 * 4 + c / 64) :: b64Char (c % 64) ::
          b64encodePad rest).reverse).dropWhile (fun ch => ch == '=') =
        (b64Char (a / 4) :: b64Char (a % 4 * 16 + b / 16) ::
          b64Char (b % 16 * 4 + c / 64) :: b64Char (c % 64) ::
          b64encodeNoPad rest).reverse
      rw [hrev, hrev, List.dropWhile_append]
      have hIsE : (((b64encodePad rest).reverse).dropWhile
          (fun ch => ch == '=')).isEmpty = false := by
        rw [IH]
        simp [List.isEmpty_iff, hne]
      rw [hIsE]
      simp only [Bool.false_eq_true, if_false]
      rw [IH]

theorem rstripEq_pad (raw : List Nat) :
    rstripEq (b64encodePad raw) = b64encodeNoPad raw := by
  unfold rstripEq
  rw [dropWhile_pad, List.reverse_reverse]

theorem make_key_eq (raw : List Nat) :
    make_key raw = "KEY-" ++ String.mk (b64encodeNoPad raw) := by
  unfold make_key
  rw [rstripEq_pad]

theorem make_key_data (raw : List Nat) :
    (make_key raw).data = "KEY-".data ++ b64encodeNoPad raw := by
  rw [make_key_eq]
  rfl

theorem make_key_drop4 (raw : List Nat) :
    ((make_key raw).data).drop 4 = b64encodeNoPad raw := by
  rw [make_key_data]
  exact List.drop_left "KEY-".data _

theorem make_key_inj {r1 r2 : List Nat} (h1 : ∀ b ∈ r1, b < 256)
    (h2 : ∀ b ∈ r2, b < 256) (h : make_key r1 = make_key r2) : r1 = r2 := by
  have hd : b64encodeNoPad r1 = b64encodeNoPad r2 := by
    have hdrop := congrArg (fun s : String => s.data.drop 4) h
    simp only [make_key_drop4] at hdrop
    exact hdrop
  have hrt := b64_roundtrip r1 h1
  rw [hd, b64_roundtrip r2 h2] at hrt
  exact (Option.some.inj hrt).symm

/-- Claim C3: every key produced by `make_key` is the fixed literal
`KEY-` followed by the unpadded URL-safe base64 encoding of its 16 random
bytes (padding stripped), and the suffix after the marker decodes back to
exactly those 16 raw bytes. -/
theorem make_key_spec (raw : List Nat) (hlen : raw.length = 16)
    (hb : ∀ b ∈ raw, b < 256) :
    make_key raw = "KEY-" ++ String.mk (b64encodeNoPad raw) ∧
    b64decodeNoPad ((make_key raw).data.drop 4) = some raw ∧
    raw.length = 16 :=
  ⟨make_key_eq raw, by rw [make_key_drop4]; exact b64_roundtrip raw hb, hlen⟩

/-- Witness for C3 at the concrete byte list `0, 1, ..., 15`. -/
theorem make_key_spec_witness :
    make_key (List.range 16) =
      "KEY-" ++ String.mk (b64encodeNoPad (List.range 16)) ∧
    b64decodeNoPad ((make_key (List.range 16)).data.drop 4) =
      some (List.range 16) ∧
    (List.range 16).length = 16 :=
  make_key_spec (List.range 16) (by decide) (by decide)

/-- Claim C2: with a randomness source that yields valid, pairwise distinct
byte strings (the negligible-collision assumption on 128-bit randomness),
one invocation with `count ≥ 1` produces a payload holding exactly `count`
pairwise distinct keys, and the whole batch carries the one expiry
computed once by `compute_expiry` (a single `expires_at` value). -/
theorem genKeysRun_count_distinct (rand : Nat → List Nat) (now : Date)
    (unit : String) (amount count : Int) (tag : String)
    (hu : lower unit ∈ VALID_UNITS) (ha : 0 < amount) (hc : 1 ≤ count)
    (hbytes : ∀ i < count.toNat, ∀ b ∈ rand i, b < 256)
    (hdist : ∀ i < count.toNat, ∀ j < count.toNat, i ≠ j → rand i ≠ rand j) :
    ∃ p e, genKeysRun rand now unit amount count tag = .ok p ∧
      compute_expiry now unit amount = .ok e ∧
      (p.keys.length : Int) = count ∧ p.keys.Nodup ∧
      p.expires_at_pht = to_rfc3339 e ∧ p.expires_at_unix = dateToUnixPHT e := by
  obtain ⟨e, he⟩ := compute_expiry_ok now unit amount hu ha
  refine ⟨mkPayload now e unit amount count tag
      ((List.range count.toNat).map (fun i => make_key (rand i))), e,
    ?_, he, ?_, ?_, rfl, rfl⟩
  · unfold genKeysRun
    rw [he]
    rfl
  · simp [mkPayload]
    omega
  · show ((List.range count.toNat).map (fun i => make_key (rand i))).Nodup
    refine List.Nodup.map_on ?_ (List.nodup_range _)
    intro i hi j hj hf
    by_contra hne
    have hri := hbytes i (List.mem_range.mp hi)
    have hrj := hbytes j (List.mem_range.mp hj)
    exact hdist i (List.mem_range.mp hi) j (List.mem_range.mp hj) hne
      (make_key_inj hri hrj hf)

/-- Witness for C2: three keys from three distinct byte strings. -/
theorem genKeysRun_count_distinct_witness :
    ∃ p e,
      genKeysRun (fun i => List.replicate 16 i) ⟨2024, 1, 1⟩ "days" 30 3 "" =
        .ok p ∧
      compute_expiry ⟨2024, 1, 1⟩ "days" 30 = .ok e ∧
      (p.keys.length : Int) = 3 ∧ p.keys.Nodup ∧
      p.expires_at_pht = to_rfc3339 e ∧ p.expires_at_unix = dateToUnixPHT e :=
  genKeysRun_count_distinct (fun i => List.replicate 16 i) ⟨2024, 1, 1⟩
    "days" 30 3 "" (by decide) (by decide) (by decide) (by decide) (by decide)

/-! ### CSV, index and whole-run theorems -/

/-- Claim C8: the per-run CSV is exactly the header row
`key,generated_at_pht,expires_at_pht,expires_at_unix,unit,amount,tag`
followed by one row per generated key, each row carrying that key and the
identical batch metadata. -/
theorem csvRows_spec (p : Payload) :
    (csvRows p).length = p.keys.length + 1 ∧
    (csvRows p)[0]? = some ["key", "generated_at_pht", "expires_at_pht",
      "expires_at_unix", "unit", "amount", "tag"] ∧
    ∀ i : Nat, (csvRows p)[i + 1]? = (p.keys[i]?).map (fun k =>
      [k, p.generated_at_pht, p.expires_at_pht, toString p.expires_at_unix,
        p.unit, toString p.amount, p.tag]) := by
  refine ⟨by simp [csvRows], ?_, ?_⟩
  · show (csvHeader :: p.keys.map (csvRow p))[0]? = _
    rw [List.getElem?_cons_zero]
    rfl
  · intro i
    show (csvHeader :: p.keys.map (csvRow p))[i + 1]? = _
    rw [List.getElem?_cons_succ, List.getElem?_map]
    cases p.keys[i]? <;> rfl

theorem foldl_index (runs : List (String × Payload)) :
    ∀ idx : List IndexEntry,
      runs.foldl (fun idx r =>
        (write_outputs r.1 (.wellFormed idx) r.2).index_json) idx =
      idx ++ runs.map (fun r => entryOf r.1 r.2) := by
  induction runs with
  | nil =>
    intro idx
    simp
  | cons r rs ih =>
    intro idx
    rw [List.foldl_cons, ih]
    show (loadIndex (.wellFormed idx) ++ [entryOf r.1 r.2]) ++
      rs.map (fun r => entryOf r.1 r.2) = _
    simp [loadIndex]

theorem runAll_eq_map (runs : List (String × Payload)) :
    runAll runs = runs.map (fun r => entryOf r.1 r.2) := by
  unfold runAll
  rw [foldl_index]
  rfl

/-- Claim C6: after N successful sequential invocations against the same
directory with no external corruption, the index holds exactly N entries,
the i-th being the summary entry of the i-th invocation's run name and
payload; each invocation appends exactly one entry and leaves the prior
entries unchanged. -/
theorem index_after_runs (runs : List (String × Payload)) :
    (runAll runs).length = runs.length ∧
    (∀ i : Nat, (runAll runs)[i]? =
      (runs[i]?).map (fun r => entryOf r.1 r.2)) ∧
    (∀ r : String × Payload,
      runAll (runs ++ [r]) = runAll runs ++ [entryOf r.1 r.2]) := by
  refine ⟨?_, ?_, ?_⟩
  · rw [runAll_eq_map]
    simp
  · intro i
    rw [runAll_eq_map]
    simp [List.getElem?_map]
  · intro r
    rw [runAll_eq_map, runAll_eq_map]
    simp

/-- Claim C7: when the prior index file is missing or cannot be parsed,
`write_outputs` treats the index as empty and still completes the whole
run — the run directory name, `keys.json`, `keys.csv` and `latest.json`
are all produced — and writes a fresh one-entry index. -/
theorem write_outputs_tolerates_index (runName : String)
    (prior : IndexContent) (p : Payload)
    (h : prior = .missing ∨ prior = .corrupt) :
    write_outputs runName prior p =
      { run_dir := runName
        keys_json := p
        keys_csv := csvRows p
        latest_json := p
        index_json := [entryOf runName p] } := by
  rcases h with h | h <;> subst h <;> rfl

/-- Witness for C7 on a corrupt index file. -/
theorem write_outputs_tolerates_index_witness :
    write_outputs "run1" .corrupt
        (mkPayload ⟨2024, 1, 1⟩ ⟨2024, 1, 31⟩ "days" 30 1 "" ["k"]) =
      { run_dir := "run1"
        keys_json := mkPayload ⟨2024, 1, 1⟩ ⟨2024, 1, 31⟩ "days" 30 1 "" ["k"]
        keys_csv := csvRows
          (mkPayload ⟨2024, 1, 1⟩ ⟨2024, 1, 31⟩ "days" 30 1 "" ["k"])
        latest_json := mkPayload ⟨2024, 1, 1⟩ ⟨2024, 1, 31⟩ "days" 30 1 "" ["k"]
        index_json := [entryOf "run1"
          (mkPayload ⟨2024, 1, 1⟩ ⟨2024, 1, 31⟩ "days" 30 1 "" ["k"])] } :=
  write_outputs_tolerates_index "run1" .corrupt _ (Or.inr rfl)

/-- Claim C4 counterexample: at `count = 0` — not a positive integer — the
modelled `main` still succeeds (no `InvalidArgument` is raised and a batch
is produced), refuting the claim that the operation does not succeed for
every `count ≤ 0`. -/
theorem main_count_zero_succeeds :
    exceptOk (main_model (fun _ => List.replicate 16 0) ⟨2024, 1, 1⟩ "days"
      30 0 "" "run1" .missing) = true :=
  rfl

/-- Claim C4 (amended): `main` validates `unit` (via `argparse` choices and
`compute_expiry`) and `amount` (via `compute_expiry`) but never checks
`count`; for every `count ≤ 0` the operation still succeeds, producing a
batch whose key list is empty. -/
theorem main_nonpositive_count (rand : Nat → List Nat) (now : Date)
    (unit : String) (amount count : Int) (tag runName : String)
    (prior : IndexContent) (hu : lower unit ∈ VALID_UNITS) (ha : 0 < amount)
    (hc : count ≤ 0) :
    ∃ out, main_model rand now unit amount count tag runName prior = .ok out ∧
      out.keys_json.keys = [] := by
  obtain ⟨e, he⟩ := compute_expiry_ok now unit amount hu ha
  have hr : List.range count.toNat = [] := by
    have h0 : count.toNat = 0 := by omega
    rw [h0]
    rfl
  refine ⟨write_outputs runName prior (mkPayload now e unit amount count tag []),
    ?_, rfl⟩
  unfold main_model genKeysRun
  rw [he, hr]
  rfl

/-- Witness for the amended C4 at `count = -2`. -/
theorem main_nonpositive_count_witness :
    ∃ out, main_model (fun _ => List.replicate 16 0) ⟨2024, 1, 1⟩ "days" 30
        (-2) "" "run2" .missing = .ok out ∧ out.keys_json.keys = [] :=
  main_nonpositive_count (fun _ => List.replicate 16 0) ⟨2024, 1, 1⟩ "days" 30
    (-2) "" "run2" .missing (by decide) (by decide) (by decide)

/-- Claim C9 (modelled from the spec): `ValidateKey` returns `Valid` with
the matched record when a stored record's digest matches the presented
key's digest and the record is unexpired; `Invalid("Key expired")` when
the matching record's expiry has passed; `Invalid("Invalid key")` when no
record's digest matches; and `Invalid("No keys found")` when the store
file does not exist. -/
theorem validate_key_spec (digest : String → String)
    (records : List StoreRecord) (presented : String) (now : Int) :
    (validate_key digest none presented now = .invalid "No keys found") ∧
    (records.find? (fun q => q.hash == digest presented) = none →
      validate_key digest (some records) presented now =
        .invalid "Invalid key") ∧
    (∀ r, records.find? (fun q => q.hash == digest presented) = some r →
      now < r.expires →
      validate_key digest (some records) presented now = .valid r) ∧
    (∀ r, records.find? (fun q => q.hash == digest presented) = some r →
      r.expires ≤ now →
      validate_key digest (some records) presented now =
        .invalid "Key expired") := by
  refine ⟨rfl, ?_, ?_, ?_⟩
  · intro h
    show (match records.find? (fun q => q.hash == digest presented) with
      | none => ValidationResult.invalid "Invalid key"
      | some r => if now < r.expires then ValidationResult.valid r
          else ValidationResult.invalid "Key expired") =
      ValidationResult.invalid "Invalid key"
    rw [h]
  · intro r h hlt
    show (match records.find? (fun q => q.hash == digest presented) with
      | none => ValidationResult.invalid "Invalid key"
      | some r => if now < r.expires then ValidationResult.valid r
          else ValidationResult.invalid "Key expired") =
      ValidationResult.valid r
    rw [h]
    show (if now < r.expires then ValidationResult.valid r
      else ValidationResult.invalid "Key expired") = ValidationResult.valid r
    exact if_pos hlt
  · intro r h hle
    show (match records.find? (fun q => q.hash == digest presented) with
      | none => ValidationResult.invalid "Invalid key"
      | some r => if now < r.expires then ValidationResult.valid r
          else ValidationResult.invalid "Key expired") =
      ValidationResult.invalid "Key expired"
    rw [h]
    show (if now < r.expires then ValidationResult.valid r
      else ValidationResult.invalid "Key expired") =
      ValidationResult.invalid "Key expired"
    exact if_neg (by omega)

/-- Witness for C9: all four outcomes at concrete stores and keys. -/
theorem validate_key_spec_witness :
    validate_key (fun s => s ++ "#") none "k1" 5 = .invalid "No keys found" ∧
    validate_key (fun s => s ++ "#") (some []) "k1" 5 =
      .invalid "Invalid key" ∧
    validate_key (fun s => s ++ "#")
      (some [⟨"k1", 0, 10, 1, "days", 1, "k1#"⟩]) "k1" 5 =
      .valid ⟨"k1", 0, 10, 1, "days", 1, "k1#"⟩ ∧
    validate_key (fun s => s ++ "#")
      (some [⟨"k1", 0, 10, 1, "days", 1, "k1#"⟩]) "k1" 20 =
      .invalid "Key expired" := by
  refine ⟨(validate_key_spec (fun s => s ++ "#") [] "k1" 5).1,
    (validate_key_spec (fun s => s ++ "#") [] "k1" 5).2.1 rfl,
    (validate_key_spec (fun s => s ++ "#")
      [⟨"k1", 0, 10, 1, "days", 1, "k1#"⟩] "k1" 5).2.2.1
      ⟨"k1", 0, 10, 1, "days", 1, "k1#"⟩ ?_ (by decide),
    (validate_key_spec (fun s => s ++ "#")
      [⟨"k1", 0, 10, 1, "days", 1, "k1#"⟩] "k1" 20).2.2.2
      ⟨"k1", 0, 10, 1, "days", 1, "k1#"⟩ ?_ (by decide)⟩ <;> rfl

end Genz
